import Mathlib

/-!
Shallow embedding of the manim animation engine, covering the components the
verification claims are about: the timing-curve library
(`manimlib/utils/rate_functions.py`), the creation/reveal animations
(`manimlib/animation/creation.py`), the Transform family
(`manimlib/animation/transform.py`), rotation (`manimlib/animation/rotation.py`),
fading (`manimlib/animation/fading.py`) and decimal counting
(`manimlib/animation/numbers.py`).

Python floats are modelled as `ℚ` wherever the source only performs field
arithmetic and comparisons, and as `ℝ` where the source uses transcendental
functions (sqrt, exp, sin, cos, pi).  Helper modules of this repository that
are not present under `src/` (`utils/bezier.py`, `utils/simple_functions.py`,
`utils/paths.py`, `constants.py`, `animation/animation.py`,
`mobject/mobject.py`) are modelled from the spec where needed; each such
definition carries a doc comment starting with `Modelled from the spec:`.
-/

namespace RateFunctions

/-- `rate_functions.linear`: returns the input unchanged. -/
noncomputable def linear (t : ℝ) : ℝ := t

/-- `rate_functions.smooth`: `t^3 * (10*s*s + 5*s*t + t*t)` with `s = 1 - t`. -/
noncomputable def smooth (t : ℝ) : ℝ :=
  (t ^ 3) * (10 * (1 - t) * (1 - t) + 5 * (1 - t) * t + t * t)

/-- `rate_functions.rush_into`: `2 * smooth(0.5 * t)`. -/
noncomputable def rush_into (t : ℝ) : ℝ := 2 * smooth (0.5 * t)

/-- `rate_functions.rush_from`: `2 * smooth(0.5 * (t + 1)) - 1`. -/
noncomputable def rush_from (t : ℝ) : ℝ := 2 * smooth (0.5 * (t + 1)) - 1

/-- `rate_functions.slow_into`: `sqrt(1 - (1 - t) * (1 - t))`. -/
noncomputable def slow_into (t : ℝ) : ℝ := Real.sqrt (1 - (1 - t) * (1 - t))

/-- `rate_functions.double_smooth`: two smooth phases split at `t = 0.5`. -/
noncomputable def double_smooth (t : ℝ) : ℝ :=
  if t < 0.5 then 0.5 * smooth (2 * t) else 0.5 * (1 + smooth (2 * t - 1))

/-- `rate_functions.there_and_back`: `smooth` of `2*t` below one half, of
`2*(1-t)` above. -/
noncomputable def there_and_back (t : ℝ) : ℝ :=
  smooth (if t < 0.5 then 2 * t else 2 * (1 - t))

/-- `rate_functions.squish_rate_func` applied to arguments `func a b t`. -/
noncomputable def squish_rate_func (func : ℝ → ℝ) (a b t : ℝ) : ℝ :=
  if a = b then a
  else if t < a then func 0
  else if t > b then func 1
  else func ((t - a) / (b - a))

/-- `rate_functions.lingering`: `squish_rate_func(lambda t: t, 0, 0.8)(t)`. -/
noncomputable def lingering (t : ℝ) : ℝ := squish_rate_func (fun s => s) 0 0.8 t

/-- Modelled from the spec: the Bezier evaluator of the missing
`utils/bezier.py` module, the Bernstein-polynomial combination of the control
values (`rate_functions.py` line 54 documents `smooth` as equivalent to
`bezier([0, 0, 0, 1, 1, 1])`, and `running_start` calls it). -/
noncomputable def bezier (points : List ℝ) (t : ℝ) : ℝ :=
  (points.enum.map fun kp =>
    ((points.length - 1).choose kp.1 : ℝ) *
      (1 - t) ^ (points.length - 1 - kp.1) * t ^ kp.1 * kp.2).sum

/-- `rate_functions.running_start` with its default `pull_factor = -0.5`:
`bezier([0, 0, pull_factor, pull_factor, 1, 1, 1])(t)`. -/
noncomputable def running_start (t : ℝ) : ℝ :=
  bezier [0, 0, -0.5, -0.5, 1, 1, 1] t

/-- `rate_functions.wiggle` with its default `wiggles = 2`:
`there_and_back(t) * sin(wiggles * pi * t)`. -/
noncomputable def wiggle (t : ℝ) : ℝ :=
  there_and_back t * Real.sin (2 * Real.pi * t)

/-- `rate_functions.exponential_decay` with its default `half_life = 0.1`:
`1 - exp(-t / half_life)`. -/
noncomputable def exponential_decay (t : ℝ) : ℝ :=
  1 - Real.exp (-t / 0.1)

end RateFunctions

namespace SimpleFunctions

/-- Modelled from the spec: `clip` from the missing `utils/simple_functions.py`
(used by `creation.py` and `numbers.py` to clamp values to a range):
`min(max(a, min_a), max_a)`. -/
def clip {α : Type} [LinearOrder α] (a lo hi : α) : α := min (max a lo) hi

end SimpleFunctions

namespace Bezier

/-- Modelled from the spec: `interpolate` from the missing `utils/bezier.py`,
the straight-line interpolation of section 4.3 of the spec,
`(1 - alpha) * start + alpha * end`. -/
def interpolate (start finish α : ℚ) : ℚ := (1 - α) * start + α * finish

/-- Modelled from the spec: `integer_interpolate` from the missing
`utils/bezier.py`, the integer-interpolated switch of the spec's
draw-border-then-fill timeline: alphas at or above `1` yield the last index
with residue `1`, alphas at or below `0` the first index with residue `0`,
and in between the integer part and fractional residue of the linear
interpolation.  (Python truncates `int(...)` toward zero; on the nonnegative
values arising here that is the floor.) -/
def integer_interpolate (start finish : ℤ) (α : ℚ) : ℤ × ℚ :=
  if 1 ≤ α then (finish - 1, 1)
  else if α ≤ 0 then (start, 0)
  else (⌊(start : ℚ) + ((finish : ℚ) - (start : ℚ)) * α⌋,
    Int.fract (((finish : ℚ) - (start : ℚ)) * α))

end Bezier

namespace Creation

/-- `ShowCreation.get_bounds`: always `(0, alpha)`. -/
def ShowCreation.get_bounds (α : ℚ) : ℚ × ℚ := (0, α)

/-- Modelled from the spec: Python list indexing, `none` when the index is out
of range (an `IndexError`); negative indices count from the end of the list. -/
def pyGet {C : Type} (l : List C) (k : ℤ) : Option C :=
  if 0 ≤ k then l.get? k.toNat
  else if 0 ≤ (l.length : ℤ) + k then l.get? ((l.length : ℤ) + k).toNat
  else none

/-- `ShowSubmobjectsOneByOne.update_submobject_list`: clamps the index via
`clip(index, 0, len(all_submobs) - 1)` and then shows no child (clipped
index `0`) or the single child `all_submobs[index - 1]`; `none` models an
`IndexError` escaping. -/
def update_submobject_list {C : Type} (subs : List C) (index : ℤ) :
    Option (List C) :=
  let i := SimpleFunctions.clip index 0 ((subs.length : ℤ) - 1)
  if i = 0 then some [] else (pyGet subs (i - 1)).map fun c => [c]

/-- `ShowIncreasingSubsets.interpolate_mobject` as specialized by
`ShowSubmobjectsOneByOne` (`int_func = np.ceil`): applies the rate function,
computes `index = int(np.ceil(alpha * n_submobs))` and updates the child
list.  `int(np.ceil(x))` is exactly the ceiling. -/
def one_by_one_interpolate {C : Type} (rate_fn : ℚ → ℚ) (subs : List C)
    (α : ℚ) : Option (List C) :=
  update_submobject_list subs ⌈rate_fn α * (subs.length : ℚ)⌉

/-- The two operations `DrawBorderThenFill.interpolate_submobject` invokes on
a submobject's point data, supplied by the scene-node collaborator
(`VMobject.pointwise_become_partial` and `VMobject.interpolate` of the missing
`mobject/types/vectorized_mobject.py`); kept abstract since the claim is about
the dispatch and swap-guard logic. -/
structure VOps (D : Type) where
  reveal : D → ℚ → ℚ → D
  interp : D → D → ℚ → D

/-- Per-submobject state: the current underlying data plus this submobject's
`sm_to_index` guard entry (initialized to `0` at construction). -/
structure SubmobState (D : Type) where
  dat : D
  smIndex : ℕ

/-- `DrawBorderThenFill.interpolate_submobject`: integer-interpolates the
half-switch via `integer_interpolate(0, 2, alpha)`; at the first update at or
past the halfway boundary (`index = 1` with guard still `0`) the submobject's
data is swapped to the outline's in one step and the guard set to `1` (the
swapped-in value is returned as `some outline`, `none` when no swap occurs);
then the first half partially reveals the outline with the sub-progress and
the second half interpolates from the outline to the starting snapshot (the
true target, captured before the style was matched to the outline). -/
def DrawBorderThenFill.interpolate_submobject {D : Type} (ops : VOps D)
    (outline start : D) (s : SubmobState D) (α : ℚ) :
    SubmobState D × Option D :=
  let ii := Bezier.integer_interpolate 0 2 α
  let crossing :=
    if ii.1 = 1 ∧ s.smIndex = 0 then (SubmobState.mk outline 1, some outline)
    else (s, none)
  let d2 := if ii.1 = 0 then ops.reveal outline 0 ii.2
    else ops.interp outline start ii.2
  (SubmobState.mk d2 crossing.1.smIndex, crossing.2)

end Creation

namespace TransformM

/-- A family member of the scene-node model used for the Transform claims:
the number of Bezier path segments it carries, paired with an opaque data
payload.  Modelled from the spec: the scene-node tree of section 3 is an
external collaborator (`mobject/mobject.py` is not under `src/`); a family is
the list of members in stable traversal order. -/
abbrev Mem := ℕ × ℤ

/-- Modelled from the spec: `Mobject.is_aligned_with` — same family size and,
for each pair of corresponding members, the same path-segment count
(section 4.2 step 1). -/
def is_aligned_with (a b : List Mem) : Bool :=
  decide (a.length = b.length) &&
    (a.zip b).all fun xy => decide (xy.1.1 = xy.2.1)

/-- Modelled from the spec: deep clone of a node tree (section 6); in the
pure model a copy is simply a separate value. -/
def copy (m : List Mem) : List Mem := m

/-- Modelled from the spec: family-size reconciliation (section 4.2 step 3) —
the shorter family is padded by repeating its last member. -/
def pad_to_length (n : ℕ) (l : List Mem) : List Mem :=
  l ++ List.replicate (n - l.length) (l.getLastD (0, 0))

/-- Modelled from the spec: per-node path reconciliation (section 4.2 step
4) — the member with fewer Bezier segments is subdivided until the counts
match (both end at the larger count), preserving the curve's shape (the
payload). -/
def align_pair (x y : Mem) : Mem × Mem :=
  ((max x.1 y.1, x.2), (max x.1 y.1, y.2))

/-- Modelled from the spec: `Mobject.align_data_and_family` (section 4.2) —
pad the smaller family, then reconcile each pair of corresponding members;
both arguments may be restructured, which is why `Transform.begin` protects
the caller's target with a copy. -/
def align_data_and_family (a b : List Mem) : List Mem × List Mem :=
  let n := max a.length b.length
  let a2 := pad_to_length n a
  let b2 := pad_to_length n b
  ((a2.zip b2).map fun xy => (align_pair xy.1 xy.2).1,
   (a2.zip b2).map fun xy => (align_pair xy.1 xy.2).2)

/-- A Transform-family animation as `begin` sees it: the subclass name, the
mobject, the `target_mobject` stored by the constructor, and the result of
the `create_target` strategy as resolved when `begin` runs (the base class
returns the constructor-stored target; subclasses compute one). -/
structure TransformAnim where
  className : String
  mobject : List Mem
  targetAtConstruction : Option (List Mem)
  createTarget : Option (List Mem)

/-- The state after a successful `Transform.begin`: the aligned mobject, the
`target_copy` that alignment operated on, and the caller's `target_mobject`
as it stands after `begin` (mutations of an aliased `target_copy` flow into
it). -/
structure BegunTransform where
  mobject : List Mem
  targetCopy : List Mem
  targetMobject : List Mem

/-- `Transform.begin` together with `Transform.check_target_mobject_validity`:
resolves the target through the `create_target` strategy at begin time, fails
with an exception naming the subclass when the strategy produced `None`
(before any alignment or interpolation), otherwise aligns against the target
itself when mobject and target are already aligned (`target_copy` aliases
`target_mobject`, so any mutation would reach it) and against a fresh copy
otherwise, preserving the caller's target. -/
def Transform.begin (anim : TransformAnim) : Except String BegunTransform :=
  match anim.createTarget with
  | none =>
    Except.error (anim.className ++ ".create_target not properly implemented")
  | some tgt =>
    if is_aligned_with anim.mobject tgt then
      let pr := align_data_and_family anim.mobject tgt
      Except.ok (BegunTransform.mk pr.1 pr.2 pr.2)
    else
      let pr := align_data_and_family anim.mobject (copy tgt)
      Except.ok (BegunTransform.mk pr.1 pr.2 tgt)

end TransformM

namespace Cyclic

/-- The in-place position writes performed by the loop in
`CyclicReplace.create_target`: each `(index, position)` pair moves the target
member at `index` to `position`. -/
def write_moves {P : Type} (moves : List (ℕ × P)) (tgt : List P) : List P :=
  moves.foldl (fun t jp => t.set jp.1 jp.2) tgt

/-- `CyclicReplace.create_target`: copies the group, forms
`cycled_targets = [target[-1], *target[:-1]]` (the members of the copy at
indices `n-1, 0, 1, ..., n-2`), zips it with the group and moves each cycled
target to the corresponding group member's position; a member's position
stands in for its geometric data.  `none` models the `IndexError` that
`target[-1]` raises on an empty group. -/
def create_target {P : Type} (ps : List P) : Option (List P) :=
  match ps with
  | [] => none
  | _ :: _ =>
    some (write_moves
      (((ps.length - 1) :: List.range (ps.length - 1)).zip ps) ps)

/-- Modelled from the spec: `DEG` from the missing `constants.py`, one degree
in radians. -/
noncomputable def DEG : ℝ := Real.pi / 180

/-- The default `path_arc = 90 * DEG` of `CyclicReplace.__init__`. -/
noncomputable def cyclic_replace_path_arc : ℝ := 90 * DEG

/-- The two path choices `Transform.init_path_func` can configure (the path
functions themselves live in the missing `utils/paths.py`; section 4.3):
the straight path, or the arc path with the given angle. -/
inductive PathChoice where
  | straight : PathChoice
  | arc : ℝ → PathChoice

/-- `Transform.init_path_func` with no custom `path_func`: the straight path
when `path_arc == 0`, otherwise an arc path of angle `path_arc` about the
configured axis. -/
noncomputable def init_path_func (path_arc : ℝ) : PathChoice :=
  if path_arc = 0 then PathChoice.straight else PathChoice.arc path_arc

end Cyclic

namespace Rotation

/-- A 3D point with real coordinates. -/
structure Pt where
  x : ℝ
  y : ℝ
  z : ℝ

/-- Modelled from the spec: rotation of a point about `c` around the default
axis `OUT` (the z axis), from `Mobject.rotate` of the missing
`mobject/mobject.py` (sections 1 and 6: rotation about a configured
axis/point). -/
noncomputable def rotate_about (θ : ℝ) (c p : Pt) : Pt :=
  Pt.mk (c.x + Real.cos θ * (p.x - c.x) - Real.sin θ * (p.y - c.y))
    (c.y + Real.sin θ * (p.x - c.x) + Real.cos θ * (p.y - c.y))
    p.z

/-- Modelled from the spec: the bounding-box center query of section 6, the
midpoint of the coordinate-wise extremes (`Pt.mk 0 0 0` for an empty
family). -/
noncomputable def center_of (pts : List Pt) : Pt :=
  match pts with
  | [] => Pt.mk 0 0 0
  | p :: rest =>
    Pt.mk
      ((rest.foldl (fun m q => min m q.x) p.x +
        rest.foldl (fun m q => max m q.x) p.x) / 2)
      ((rest.foldl (fun m q => min m q.y) p.y +
        rest.foldl (fun m q => max m q.y) p.y) / 2)
      ((rest.foldl (fun m q => min m q.z) p.z +
        rest.foldl (fun m q => max m q.z) p.z) / 2)

/-- Modelled from the spec: `Animation.time_spanned_alpha` of the missing
`animation/animation.py` — with no time span configured the alpha passes
through unchanged; with a span the animation is inactive (`0`) before it and
complete (`1`) after it (section 4.1). -/
noncomputable def time_spanned_alpha (span : Option (ℝ × ℝ)) (α : ℝ) : ℝ :=
  match span with
  | none => α
  | some ab => SimpleFunctions.clip ((α - ab.1) / (ab.2 - ab.1)) 0 1

/-- The fixed configuration of a `Rotating` animation: the immutable
starting snapshot's family point data, the total angle, the rate function,
the configured time span, and the optional `about_point` (when `none` the
rotation is about the restored mobject's center). -/
structure RotatingAnim where
  start : List Pt
  angle : ℝ
  rate_fn : ℝ → ℝ
  timeSpan : Option (ℝ × ℝ)
  aboutPt : Option Pt

/-- `Rotating.interpolate_mobject`: first restores every family member's
pointlike data from the starting snapshot
(`sm1.data[key][:] = sm2.data[key]`), which discards the incoming state
entirely, then rotates the restored data by
`rate_func(time_spanned_alpha(alpha)) * angle`. -/
noncomputable def Rotating.interpolate_mobject (anim : RotatingAnim)
    (current : List Pt) (α : ℝ) : List Pt :=
  let restored := anim.start
  let θ := anim.rate_fn (time_spanned_alpha anim.timeSpan α) * anim.angle
  let c := (anim.aboutPt).getD (center_of restored)
  restored.map (rotate_about θ c)

/-- The claim's reading of the same update: the node state as a pure function
of the single supplied alpha (rotating the immutable snapshot by the eased
angle). -/
noncomputable def Rotating.state_at (anim : RotatingAnim) (α : ℝ) : List Pt :=
  anim.start.map
    (rotate_about
      (anim.rate_fn (time_spanned_alpha anim.timeSpan α) * anim.angle)
      ((anim.aboutPt).getD (center_of anim.start)))

end Rotation

namespace Fading

/-- A 3D vector/point with rational coordinates. -/
structure V3 where
  x : ℚ
  y : ℚ
  z : ℚ
  deriving DecidableEq

/-- Modelled from the spec: the node model the fade claims need (missing
`mobject/mobject.py`): the family's point data and one opacity channel. -/
structure VMob where
  pts : List V3
  opacity : ℚ
  deriving DecidableEq

/-- Modelled from the spec: `Mobject.set_opacity`. -/
def set_opacity (o : ℚ) (m : VMob) : VMob := VMob.mk m.pts o

/-- Modelled from the spec: `Mobject.shift` — translate every point. -/
def shift (v : V3) (m : VMob) : VMob :=
  VMob.mk (m.pts.map fun p => V3.mk (p.x + v.x) (p.y + v.y) (p.z + v.z))
    m.opacity

/-- Minimum of a list of coordinates (`0` when empty). -/
def coord_min (l : List ℚ) : ℚ :=
  match l with
  | [] => 0
  | h :: t => t.foldl min h

/-- Maximum of a list of coordinates (`0` when empty). -/
def coord_max (l : List ℚ) : ℚ :=
  match l with
  | [] => 0
  | h :: t => t.foldl max h

/-- Modelled from the spec: the bounding-box center query of section 6. -/
def center_of (m : VMob) : V3 :=
  V3.mk
    ((coord_min (m.pts.map fun p => p.x) +
      coord_max (m.pts.map fun p => p.x)) / 2)
    ((coord_min (m.pts.map fun p => p.y) +
      coord_max (m.pts.map fun p => p.y)) / 2)
    ((coord_min (m.pts.map fun p => p.z) +
      coord_max (m.pts.map fun p => p.z)) / 2)

/-- Modelled from the spec: `Mobject.scale` about the mobject's own center
(its default `about_point`). -/
def scale (s : ℚ) (m : VMob) : VMob :=
  let c := center_of m
  VMob.mk
    (m.pts.map fun p =>
      V3.mk (c.x + s * (p.x - c.x)) (c.y + s * (p.y - c.y))
        (c.z + s * (p.z - c.z)))
    m.opacity

/-- `FadeOut.create_target`: a copy of the mobject with opacity set to `0`,
shifted by `shift_vect`, then scaled by `scale_factor` (about its center,
which by then is the shifted center). -/
def FadeOut.create_target (m : VMob) (shift_vect : V3) (scale_factor : ℚ) :
    VMob :=
  scale scale_factor (shift shift_vect (set_opacity 0 m))

/-- A unit square centered at the origin. -/
def unit_square : VMob :=
  VMob.mk
    [V3.mk (-(1 / 2)) (-(1 / 2)) 0, V3.mk (1 / 2) (-(1 / 2)) 0,
     V3.mk (1 / 2) (1 / 2) 0, V3.mk (-(1 / 2)) (1 / 2) 0] 1

/-- Modelled from the spec: `straight_path` of the missing `utils/paths.py`
(section 4.3): `(1 - alpha) * start + alpha * end`, per coordinate. -/
def straight_path (a b : V3) (α : ℚ) : V3 :=
  V3.mk ((1 - α) * a.x + α * b.x) ((1 - α) * a.y + α * b.y)
    ((1 - α) * a.z + α * b.z)

/-- Coordinate-wise extent (size) of a mobject: `max - min` per axis. -/
def extent (m : VMob) : V3 :=
  V3.mk
    (coord_max (m.pts.map fun p => p.x) - coord_min (m.pts.map fun p => p.x))
    (coord_max (m.pts.map fun p => p.y) - coord_min (m.pts.map fun p => p.y))
    (coord_max (m.pts.map fun p => p.z) - coord_min (m.pts.map fun p => p.z))

end Fading

namespace Numbers

/-- Modelled from the spec: `Animation.time_spanned_alpha` (missing
`animation/animation.py`), rational version; `CountInFrom` leaves the time
span unset, in which case the alpha passes through unchanged. -/
def time_spanned_alpha (span : Option (ℚ × ℚ)) (α : ℚ) : ℚ :=
  match span with
  | none => α
  | some ab => SimpleFunctions.clip ((α - ab.1) / (ab.2 - ab.1)) 0 1

/-- The `number_update_func` installed by the effective (second) definition
of `CountInFrom`: `interpolate(source_number, start_number, clip(a, 0, 1))`,
where `start_number = decimal_mob.get_value()` is the displayed value at
construction time. -/
def CountInFrom.number_update_func (source_number start_number a : ℚ) : ℚ :=
  Bezier.interpolate source_number start_number
    (SimpleFunctions.clip a 0 1)

/-- `ChangingDecimal.interpolate_mobject`: the value written into the decimal
mobject — `number_update_func(time_spanned_alpha(alpha))` (no rate function
is applied in this path). -/
def ChangingDecimal.interpolate_mobject (f : ℚ → ℚ) (span : Option (ℚ × ℚ))
    (α : ℚ) : ℚ :=
  f (time_spanned_alpha span α)

/-- The value a `CountInFrom` with no time span displays at progress `α`. -/
def count_in_from_value (source_number start_number α : ℚ) : ℚ :=
  ChangingDecimal.interpolate_mobject
    (CountInFrom.number_update_func source_number start_number) none α

end Numbers


namespace RateFunctions

theorem smooth_zero : smooth 0 = 0 := by norm_num [smooth]

theorem smooth_one : smooth 1 = 1 := by norm_num [smooth]

theorem smooth_half : smooth (1 / 2) = 1 / 2 := by norm_num [smooth]

theorem linear_zero : linear 0 = 0 := rfl

theorem linear_one : linear 1 = 1 := rfl

theorem rush_into_zero : rush_into 0 = 0 := by
  rw [rush_into]; norm_num [smooth_zero]

theorem rush_into_one : rush_into 1 = 1 := by
  have h : (0.5 : ℝ) * 1 = 1 / 2 := by norm_num
  rw [rush_into, h, smooth_half]; norm_num

theorem rush_from_zero : rush_from 0 = 0 := by
  have h : (0.5 : ℝ) * (0 + 1) = 1 / 2 := by norm_num
  rw [rush_from, h, smooth_half]; norm_num

theorem rush_from_one : rush_from 1 = 1 := by
  rw [rush_from]; norm_num [smooth_one]

theorem slow_into_zero : slow_into 0 = 0 := by
  rw [slow_into]; norm_num

theorem slow_into_one : slow_into 1 = 1 := by
  rw [slow_into]; norm_num

theorem double_smooth_zero : double_smooth 0 = 0 := by
  rw [double_smooth, if_pos (by norm_num : (0 : ℝ) < 0.5)]
  norm_num [smooth_zero]

theorem double_smooth_one : double_smooth 1 = 1 := by
  rw [double_smooth, if_neg (by norm_num : ¬ (1 : ℝ) < 0.5)]
  norm_num [smooth_one]

theorem there_and_back_zero : there_and_back 0 = 0 := by
  rw [there_and_back, if_pos (by norm_num : (0 : ℝ) < 0.5)]
  norm_num [smooth_zero]

theorem there_and_back_one : there_and_back 1 = 0 := by
  rw [there_and_back, if_neg (by norm_num : ¬ (1 : ℝ) < 0.5)]
  norm_num [smooth_zero]

theorem lingering_zero : lingering 0 = 0 := by
  rw [lingering, squish_rate_func]
  norm_num

theorem lingering_one : lingering 1 = 1 := by
  rw [lingering, squish_rate_func]
  norm_num

theorem running_start_zero : running_start 0 = 0 := by
  rw [running_start, bezier]
  norm_num [List.enum, List.enumFrom]

theorem running_start_one : running_start 1 = 1 := by
  rw [running_start, bezier]
  norm_num [List.enum, List.enumFrom]

theorem wiggle_zero : wiggle 0 = 0 := by
  rw [wiggle, there_and_back_zero]; ring

theorem wiggle_one : wiggle 1 = 0 := by
  rw [wiggle, there_and_back_one]; ring

theorem exponential_decay_zero : exponential_decay 0 = 0 := by
  rw [exponential_decay]
  norm_num

theorem exponential_decay_one : exponential_decay 1 = 1 - Real.exp (-10) := by
  rw [exponential_decay]
  norm_num

theorem exponential_decay_one_ne : exponential_decay 1 ≠ 1 := by
  rw [exponential_decay_one]
  have h := Real.exp_pos (-10)
  intro hc
  nlinarith

end RateFunctions

/-- C1: The claim states that every listed timing curve satisfies `f(0) = 0`
and `f(1) = 1` unless it is a documented overshoot/offset exception.  This is
false as stated: `wiggle` carries no documentation marking it as an exception,
yet `wiggle 1 = 0 ≠ 1`. -/
theorem C1_wiggle_endpoint_counterexample :
    RateFunctions.wiggle 1 = 0 ∧ (0 : ℝ) ≠ 1 := by
  exact ⟨RateFunctions.wiggle_one, by norm_num⟩

/-- C1 (amended): every listed curve satisfies `f(0) = 0`; `f(1) = 1` holds for
`linear`, `smooth`, `rush_into`, `rush_from`, `slow_into`, `double_smooth`,
`running_start` and `lingering`; `there_and_back` and `wiggle` return to `0`
at `t = 1` (by design of a there-and-back motion), and `exponential_decay`
reaches only `1 - exp(-10)` at `t = 1` (the cut-off error its code comment
documents), which is strictly short of `1`. -/
theorem C1_rate_function_endpoints :
    RateFunctions.linear 0 = 0 ∧ RateFunctions.linear 1 = 1 ∧
    RateFunctions.smooth 0 = 0 ∧ RateFunctions.smooth 1 = 1 ∧
    RateFunctions.rush_into 0 = 0 ∧ RateFunctions.rush_into 1 = 1 ∧
    RateFunctions.rush_from 0 = 0 ∧ RateFunctions.rush_from 1 = 1 ∧
    RateFunctions.slow_into 0 = 0 ∧ RateFunctions.slow_into 1 = 1 ∧
    RateFunctions.double_smooth 0 = 0 ∧ RateFunctions.double_smooth 1 = 1 ∧
    RateFunctions.running_start 0 = 0 ∧ RateFunctions.running_start 1 = 1 ∧
    RateFunctions.lingering 0 = 0 ∧ RateFunctions.lingering 1 = 1 ∧
    RateFunctions.there_and_back 0 = 0 ∧ RateFunctions.there_and_back 1 = 0 ∧
    RateFunctions.wiggle 0 = 0 ∧ RateFunctions.wiggle 1 = 0 ∧
    RateFunctions.exponential_decay 0 = 0 ∧
    RateFunctions.exponential_decay 1 = 1 - Real.exp (-10) ∧
    RateFunctions.exponential_decay 1 ≠ 1 := by
  refine ⟨RateFunctions.linear_zero, RateFunctions.linear_one,
    RateFunctions.smooth_zero, RateFunctions.smooth_one,
    RateFunctions.rush_into_zero, RateFunctions.rush_into_one,
    RateFunctions.rush_from_zero, RateFunctions.rush_from_one,
    RateFunctions.slow_into_zero, RateFunctions.slow_into_one,
    RateFunctions.double_smooth_zero, RateFunctions.double_smooth_one,
    RateFunctions.running_start_zero, RateFunctions.running_start_one,
    RateFunctions.lingering_zero, RateFunctions.lingering_one,
    RateFunctions.there_and_back_zero, RateFunctions.there_and_back_one,
    RateFunctions.wiggle_zero, RateFunctions.wiggle_one,
    RateFunctions.exponential_decay_zero, RateFunctions.exponential_decay_one,
    RateFunctions.exponential_decay_one_ne⟩

namespace Bezier

theorem integer_interpolate_first_half (α : ℚ) (h0 : 0 ≤ α) (h : α < 1 / 2) :
    integer_interpolate 0 2 α = (0, 2 * α) := by
  unfold integer_interpolate
  rw [if_neg (by linarith : ¬ (1 : ℚ) ≤ α)]
  by_cases hz : α ≤ 0
  · have hα : α = 0 := le_antisymm hz h0
    subst hα
    norm_num
  · rw [if_neg hz]
    have h2 : ((0 : ℤ) : ℚ) + (((2 : ℤ) : ℚ) - ((0 : ℤ) : ℚ)) * α = 2 * α := by
      push_cast; ring
    have h3 : (((2 : ℤ) : ℚ) - ((0 : ℤ) : ℚ)) * α = 2 * α := by push_cast; ring
    have hfl : ⌊(2 : ℚ) * α⌋ = 0 := by
      rw [Int.floor_eq_zero_iff, Set.mem_Ico]
      exact ⟨by linarith, by linarith⟩
    have hfr : Int.fract ((2 : ℚ) * α) = 2 * α :=
      Int.fract_eq_self.mpr ⟨by linarith, by linarith⟩
    rw [h2, h3, hfl, hfr]

theorem integer_interpolate_second_half (α : ℚ) (h : 1 / 2 ≤ α) (h1 : α ≤ 1) :
    integer_interpolate 0 2 α = (1, 2 * α - 1) := by
  unfold integer_interpolate
  by_cases ho : 1 ≤ α
  · have hα : α = 1 := le_antisymm h1 ho
    subst hα
    norm_num
  · rw [if_neg ho, if_neg (by linarith : ¬ α ≤ 0)]
    have h2 : ((0 : ℤ) : ℚ) + (((2 : ℤ) : ℚ) - ((0 : ℤ) : ℚ)) * α = 2 * α := by
      push_cast; ring
    have h3 : (((2 : ℤ) : ℚ) - ((0 : ℤ) : ℚ)) * α = 2 * α := by push_cast; ring
    have hfl : ⌊(2 : ℚ) * α⌋ = 1 := by
      rw [Int.floor_eq_iff]
      constructor
      · push_cast; linarith
      · push_cast; linarith
    have hfr : Int.fract ((2 : ℚ) * α) = 2 * α - 1 := by
      unfold Int.fract
      rw [hfl]
      push_cast
      ring
    rw [h2, h3, hfl, hfr]

end Bezier

namespace Creation

theorem dbtf_first_half {D : Type} (ops : VOps D) (outline start : D)
    (s : SubmobState D) (α : ℚ) (h0 : 0 ≤ α) (hlt : α < 1 / 2) :
    DrawBorderThenFill.interpolate_submobject ops outline start s α =
      (SubmobState.mk (ops.reveal outline 0 (2 * α)) s.smIndex, none) := by
  unfold DrawBorderThenFill.interpolate_submobject
  rw [Bezier.integer_interpolate_first_half α h0 hlt]
  simp

theorem dbtf_second_half {D : Type} (ops : VOps D) (outline start : D)
    (s : SubmobState D) (α : ℚ) (hge : 1 / 2 ≤ α) (h1 : α ≤ 1) :
    DrawBorderThenFill.interpolate_submobject ops outline start s α =
      (SubmobState.mk (ops.interp outline start (2 * α - 1))
         (if s.smIndex = 0 then 1 else s.smIndex),
       if s.smIndex = 0 then some outline else none) := by
  unfold DrawBorderThenFill.interpolate_submobject
  rw [Bezier.integer_interpolate_second_half α hge h1]
  by_cases hz : s.smIndex = 0 <;> simp [hz]

theorem dbtf_guarded {D : Type} (ops : VOps D) (outline start : D) (d : D)
    (β : ℚ) :
    (DrawBorderThenFill.interpolate_submobject ops outline start
      (SubmobState.mk d 1) β).2 = none := by
  unfold DrawBorderThenFill.interpolate_submobject
  simp

end Creation

/-- C5: `ShowCreation.get_bounds(alpha)` equals `(0, alpha)` for every alpha;
consequently the partial-reveal bounds satisfy `lower <= upper` at every alpha
in `[0, 1]`, and at `alpha = 1` the bounds are exactly `(0, 1)`, the complete
path. -/
theorem C5_show_creation_bounds (α : ℚ) (h0 : 0 ≤ α) (h1 : α ≤ 1) :
    (∀ β : ℚ, Creation.ShowCreation.get_bounds β = (0, β)) ∧
    (Creation.ShowCreation.get_bounds α).1 ≤
      (Creation.ShowCreation.get_bounds α).2 ∧
    Creation.ShowCreation.get_bounds 1 = (0, 1) := by
  refine ⟨fun β => rfl, ?_, rfl⟩
  simpa [Creation.ShowCreation.get_bounds] using h0

theorem C5_show_creation_bounds_witness :
    (0 : ℚ) ≤ 1 / 2 ∧ (1 / 2 : ℚ) ≤ 1 ∧
    ((∀ β : ℚ, Creation.ShowCreation.get_bounds β = (0, β)) ∧
     (Creation.ShowCreation.get_bounds (1 / 2)).1 ≤
       (Creation.ShowCreation.get_bounds (1 / 2)).2 ∧
     Creation.ShowCreation.get_bounds 1 = (0, 1)) :=
  ⟨by norm_num, by norm_num,
    C5_show_creation_bounds (1 / 2) (by norm_num) (by norm_num)⟩

/-- C2: for every submobject and alpha in `[0, 1]`, `DrawBorderThenFill`
splits the timeline in two halves through the integer-interpolated switch:
below one half the data becomes the partial outline with sub-progress
`2 * alpha`; at or past one half the data interpolates from the outline state
to the true target with sub-progress `2 * alpha - 1`; the underlying data is
swapped to the outline's exactly at the first crossing of the halfway
boundary (the guard entry moving from `0` to `1` in the same step), and a
submobject whose guard is already set never swaps again. -/
theorem C2_draw_border_then_fill_halves {D : Type} (ops : Creation.VOps D)
    (outline start : D) (s : Creation.SubmobState D) (α : ℚ)
    (h0 : 0 ≤ α) (h1 : α ≤ 1) :
    (Creation.DrawBorderThenFill.interpolate_submobject ops outline start
      s α).1.dat =
      (if α < 1 / 2 then ops.reveal outline 0 (2 * α)
       else ops.interp outline start (2 * α - 1)) ∧
    (Creation.DrawBorderThenFill.interpolate_submobject ops outline start
      s α).2 =
      (if 1 / 2 ≤ α ∧ s.smIndex = 0 then some outline else none) ∧
    (Creation.DrawBorderThenFill.interpolate_submobject ops outline start
      s α).1.smIndex =
      (if 1 / 2 ≤ α ∧ s.smIndex = 0 then 1 else s.smIndex) ∧
    (∀ (β : ℚ) (d : D),
      (Creation.DrawBorderThenFill.interpolate_submobject ops outline start
        (Creation.SubmobState.mk d 1) β).2 = none) := by
  by_cases hlt : α < 1 / 2
  · rw [Creation.dbtf_first_half ops outline start s α h0 hlt]
    have hna : ¬ (1 / 2 ≤ α ∧ s.smIndex = 0) := by
      rintro ⟨hc, -⟩; linarith
    rw [if_pos hlt, if_neg hna, if_neg hna]
    exact ⟨rfl, rfl, rfl, fun β d => Creation.dbtf_guarded ops outline start d β⟩
  · have hge : 1 / 2 ≤ α := le_of_not_lt hlt
    rw [Creation.dbtf_second_half ops outline start s α hge h1]
    rw [if_neg hlt]
    by_cases hz : s.smIndex = 0
    · have hcond : (1 : ℚ) / 2 ≤ α ∧ s.smIndex = 0 := ⟨hge, hz⟩
      simp only [if_pos hz, if_pos hcond]
      exact ⟨trivial, trivial, trivial,
        fun β d => Creation.dbtf_guarded ops outline start d β⟩
    · have hcond : ¬ ((1 : ℚ) / 2 ≤ α ∧ s.smIndex = 0) := fun hc => hz hc.2
      simp only [if_neg hz, if_neg hcond]
      exact ⟨trivial, trivial, trivial,
        fun β d => Creation.dbtf_guarded ops outline start d β⟩

theorem C2_halves_witness :
    (0 : ℚ) ≤ 3 / 4 ∧ (3 / 4 : ℚ) ≤ 1 ∧
    ((Creation.DrawBorderThenFill.interpolate_submobject
        (Creation.VOps.mk (fun o a b => o + a + b) (fun x y t => x + y + t))
        (3 : ℚ) 5 (Creation.SubmobState.mk 0 0) (3 / 4)).1.dat =
      (if (3 / 4 : ℚ) < 1 / 2 then (3 : ℚ) + 0 + (2 * (3 / 4))
       else (3 : ℚ) + 5 + (2 * (3 / 4) - 1)) ∧
     (Creation.DrawBorderThenFill.interpolate_submobject
        (Creation.VOps.mk (fun o a b => o + a + b) (fun x y t => x + y + t))
        (3 : ℚ) 5 (Creation.SubmobState.mk 0 0) (3 / 4)).2 =
      (if (1 / 2 : ℚ) ≤ 3 / 4 ∧
          (Creation.SubmobState.mk (0 : ℚ) 0).smIndex = 0
       then some (3 : ℚ) else none) ∧
     (Creation.DrawBorderThenFill.interpolate_submobject
        (Creation.VOps.mk (fun o a b => o + a + b) (fun x y t => x + y + t))
        (3 : ℚ) 5 (Creation.SubmobState.mk 0 0) (3 / 4)).1.smIndex =
      (if (1 / 2 : ℚ) ≤ 3 / 4 ∧
          (Creation.SubmobState.mk (0 : ℚ) 0).smIndex = 0
       then 1 else (Creation.SubmobState.mk (0 : ℚ) 0).smIndex) ∧
     (∀ (β : ℚ) (d : ℚ),
       (Creation.DrawBorderThenFill.interpolate_submobject
         (Creation.VOps.mk (fun o a b => o + a + b) (fun x y t => x + y + t))
         (3 : ℚ) 5 (Creation.SubmobState.mk d 1) β).2 = none)) :=
  ⟨by norm_num, by norm_num,
    C2_draw_border_then_fill_halves
      (Creation.VOps.mk (fun o a b => o + a + b) (fun x y t => x + y + t))
      (3 : ℚ) 5 (Creation.SubmobState.mk 0 0) (3 / 4)
      (by norm_num) (by norm_num)⟩

/-- C3: a Transform-family animation that never produces a valid target fails
fatally and is never silently skipped: `begin` resolves the target through
the `create_target` strategy (its outcome is independent of the
constructor-stored target), validates it non-null — succeeding exactly when
the strategy produced a target — and when `create_target` yields `None` it
raises an exception naming the subclass, producing no begun state, so no
interpolation can occur. -/
theorem C3_transform_target_validation (anim : TransformM.TransformAnim)
    (x : Option (List TransformM.Mem)) :
    TransformM.Transform.begin
        (TransformM.TransformAnim.mk anim.className anim.mobject
          anim.targetAtConstruction none) =
      Except.error
        (anim.className ++ ".create_target not properly implemented") ∧
    (∀ s, TransformM.Transform.begin
        (TransformM.TransformAnim.mk anim.className anim.mobject
          anim.targetAtConstruction none) ≠ Except.ok s) ∧
    (TransformM.Transform.begin anim).toOption.isSome =
      anim.createTarget.isSome ∧
    TransformM.Transform.begin
        (TransformM.TransformAnim.mk anim.className anim.mobject x
          anim.createTarget) =
      TransformM.Transform.begin anim := by
  obtain ⟨cn, mob, tac, ct⟩ := anim
  refine ⟨rfl, fun s h => Except.noConfusion h, ?_, rfl⟩
  cases ct with
  | none => rfl
  | some tgt =>
    show (TransformM.Transform.begin
      (TransformM.TransformAnim.mk cn mob tac (some tgt))).toOption.isSome = true
    unfold TransformM.Transform.begin
    by_cases hal : TransformM.is_aligned_with mob tgt
    · simp only [hal]
      rfl
    · simp only [hal]
      rfl

/-- C4: `Transform.begin` never mutates the caller's target reference:
whenever the start mobject and the resolved target are not already aligned,
the structural alignment operates on a private copy, `begin` succeeds, and
the `target_mobject` held after `begin` is exactly the resolved target,
unchanged and preserved for reuse. -/
theorem C4_transform_preserves_target (anim : TransformM.TransformAnim)
    (tgt : List TransformM.Mem)
    (h1 : anim.createTarget = some tgt)
    (h2 : TransformM.is_aligned_with anim.mobject tgt = false) :
    TransformM.Transform.begin anim =
      Except.ok (TransformM.BegunTransform.mk
        (TransformM.align_data_and_family anim.mobject (TransformM.copy tgt)).1
        (TransformM.align_data_and_family anim.mobject (TransformM.copy tgt)).2
        tgt) ∧
    (TransformM.BegunTransform.mk
        (TransformM.align_data_and_family anim.mobject (TransformM.copy tgt)).1
        (TransformM.align_data_and_family anim.mobject (TransformM.copy tgt)).2
        tgt).targetMobject = tgt := by
  obtain ⟨cn, mob, tac, ct⟩ := anim
  simp only at h1 h2
  subst h1
  refine ⟨?_, rfl⟩
  unfold TransformM.Transform.begin
  simp only [h2]
  rfl

theorem C4_preserves_target_witness :
    (TransformM.TransformAnim.mk "Transform" [((1 : ℕ), (5 : ℤ))]
        (some [((2 : ℕ), (7 : ℤ))]) (some [((2 : ℕ), (7 : ℤ))])).createTarget =
      some [((2 : ℕ), (7 : ℤ))] ∧
    TransformM.is_aligned_with
        (TransformM.TransformAnim.mk "Transform" [((1 : ℕ), (5 : ℤ))]
          (some [((2 : ℕ), (7 : ℤ))]) (some [((2 : ℕ), (7 : ℤ))])).mobject
        [((2 : ℕ), (7 : ℤ))] = false ∧
    (TransformM.Transform.begin
        (TransformM.TransformAnim.mk "Transform" [((1 : ℕ), (5 : ℤ))]
          (some [((2 : ℕ), (7 : ℤ))]) (some [((2 : ℕ), (7 : ℤ))])) =
      Except.ok (TransformM.BegunTransform.mk
        (TransformM.align_data_and_family [((1 : ℕ), (5 : ℤ))]
          (TransformM.copy [((2 : ℕ), (7 : ℤ))])).1
        (TransformM.align_data_and_family [((1 : ℕ), (5 : ℤ))]
          (TransformM.copy [((2 : ℕ), (7 : ℤ))])).2
        [((2 : ℕ), (7 : ℤ))]) ∧
     (TransformM.BegunTransform.mk
        (TransformM.align_data_and_family [((1 : ℕ), (5 : ℤ))]
          (TransformM.copy [((2 : ℕ), (7 : ℤ))])).1
        (TransformM.align_data_and_family [((1 : ℕ), (5 : ℤ))]
          (TransformM.copy [((2 : ℕ), (7 : ℤ))])).2
        [((2 : ℕ), (7 : ℤ))]).targetMobject = [((2 : ℕ), (7 : ℤ))]) :=
  ⟨rfl, by decide,
    C4_transform_preserves_target
      (TransformM.TransformAnim.mk "Transform" [((1 : ℕ), (5 : ℤ))]
        (some [((2 : ℕ), (7 : ℤ))]) (some [((2 : ℕ), (7 : ℤ))]))
      [((2 : ℕ), (7 : ℤ))] rfl (by decide)⟩

/-- C8: `Rotating.interpolate_mobject` restores every family member's point
data from the immutable starting snapshot before applying the rotation by
`rate_func(alpha) * angle`, so the resulting node state is a pure function of
the single supplied alpha: it ignores the incoming node state entirely
(calling it twice with the same alpha yields the same state), it equals the
closed-form `state_at`, and replaying the same sequence of alphas from two
different intermediate states yields identical node states — no accumulated
rotation drift across frames. -/
theorem C8_rotating_determinism (anim : Rotation.RotatingAnim)
    (cur cur2 : List Rotation.Pt) (α α0 : ℝ) (αs : List ℝ) :
    Rotation.Rotating.interpolate_mobject anim cur α =
      Rotation.Rotating.interpolate_mobject anim cur2 α ∧
    Rotation.Rotating.interpolate_mobject anim cur α =
      Rotation.Rotating.state_at anim α ∧
    (α0 :: αs).foldl (Rotation.Rotating.interpolate_mobject anim) cur =
      (α0 :: αs).foldl (Rotation.Rotating.interpolate_mobject anim) cur2 := by
  refine ⟨rfl, rfl, ?_⟩
  simp only [List.foldl_cons]
  congr 1

namespace Cyclic

theorem write_moves_length {P : Type} (moves : List (ℕ × P)) (t : List P) :
    (write_moves moves t).length = t.length := by
  induction moves generalizing t with
  | nil => rfl
  | cons m rest ih =>
    show (write_moves rest (t.set m.1 m.2)).length = t.length
    rw [ih, List.length_set]

theorem write_moves_get_of_not_mem {P : Type} (moves : List (ℕ × P))
    (t : List P) (j : ℕ) (hj : j ∉ moves.map Prod.fst) :
    (write_moves moves t).get? j = t.get? j := by
  induction moves generalizing t with
  | nil => rfl
  | cons m rest ih =>
    rw [List.map_cons, List.mem_cons] at hj
    push_neg at hj
    show (write_moves rest (t.set m.1 m.2)).get? j = t.get? j
    rw [ih _ hj.2, List.get?_set_ne _ _ (fun h => hj.1 h.symm)]

theorem write_moves_get_of_mem {P : Type} (moves : List (ℕ × P)) (t : List P)
    (j : ℕ) (v : P) (hnd : (moves.map Prod.fst).Nodup)
    (hmem : (j, v) ∈ moves) (hlt : j < t.length) :
    (write_moves moves t).get? j = some v := by
  induction moves generalizing t with
  | nil => cases hmem
  | cons m rest ih =>
    rw [List.map_cons, List.nodup_cons] at hnd
    rcases List.mem_cons.mp hmem with heq | hrest
    · have hm : m = (j, v) := heq.symm
      subst hm
      show (write_moves rest (t.set j v)).get? j = some v
      rw [write_moves_get_of_not_mem rest _ j hnd.1,
        List.get?_set_eq_of_lt _ hlt]
    · show (write_moves rest (t.set m.1 m.2)).get? j = some v
      exact ih _ hnd.2 hrest (by rw [List.length_set]; exact hlt)

theorem create_target_get {P : Type} (ps : List P) (j : ℕ)
    (hj : j < ps.length) :
    ∃ t, create_target ps = some t ∧ t.length = ps.length ∧
      t.get? j = ps.get? ((j + 1) % ps.length) := by
  cases ps with
  | nil => cases hj
  | cons p rest =>
    have hn1 : (p :: rest).length = rest.length + 1 := by simp
    refine ⟨_, rfl, write_moves_length _ _, ?_⟩
    have hfst : (((((p :: rest).length - 1) ::
        List.range ((p :: rest).length - 1)).zip (p :: rest)).map
        Prod.fst) = ((p :: rest).length - 1) ::
        List.range ((p :: rest).length - 1) := by
      apply List.map_fst_zip
      simp
    have hnd : (((((p :: rest).length - 1) ::
        List.range ((p :: rest).length - 1)).zip (p :: rest)).map
        Prod.fst).Nodup := by
      rw [hfst, List.nodup_cons]
      exact ⟨by simp [List.mem_range], List.nodup_range _⟩
    by_cases hlast : j = (p :: rest).length - 1
    · subst hlast
      have hmod : ((p :: rest).length - 1 + 1) % (p :: rest).length = 0 := by
        have hs : (p :: rest).length - 1 + 1 = (p :: rest).length := by omega
        rw [hs, Nat.mod_self]
      rw [hmod]
      have hmem : (((p :: rest).length - 1, p) : ℕ × P) ∈
          ((((p :: rest).length - 1) ::
            List.range ((p :: rest).length - 1)).zip (p :: rest)) :=
        List.mem_cons_self _ _
      rw [write_moves_get_of_mem _ _ _ _ hnd hmem (by omega)]
      rfl
    · have hjlt : j < (p :: rest).length - 1 := by omega
      have hmod : (j + 1) % (p :: rest).length = j + 1 :=
        Nat.mod_eq_of_lt (by omega)
      rw [hmod]
      have hget : ((List.range ((p :: rest).length - 1)).zip rest).get? j =
          some (j, rest.get ⟨j, by omega⟩) := by
        rw [List.get?_zip_eq_some]
        constructor
        · rw [List.get?_eq_getElem?]
          exact List.getElem?_range (by omega)
        · exact (List.get?_eq_get (by omega)).trans rfl
      have hmem : ((j, rest.get ⟨j, by omega⟩) : ℕ × P) ∈
          ((((p :: rest).length - 1) ::
            List.range ((p :: rest).length - 1)).zip (p :: rest)) := by
        have hz : ((((p :: rest).length - 1) ::
            List.range ((p :: rest).length - 1)).zip (p :: rest)) =
            ((p :: rest).length - 1, p) ::
              ((List.range ((p :: rest).length - 1)).zip rest) := rfl
        rw [hz]
        exact List.mem_cons_of_mem _ (List.get?_mem hget)
      rw [write_moves_get_of_mem _ _ _ _ hnd hmem (by omega)]
      show _ = (p :: rest).get? (j + 1)
      rw [List.get?_cons_succ, List.get?_eq_get (by omega)]

end Cyclic

/-- C6: the claim states that in `CyclicReplace` over `n` members the target
for member `i` is placed at the position of member `(i - 1) mod n`.  This is
false: for three members at positions `10, 20, 30`, `create_target` produces
targets at positions `20, 30, 10` — member `0`'s target sits at member `1`'s
position — whereas the claim predicts positions `30, 10, 20`. -/
theorem C6_cyclic_replace_counterexample :
    Cyclic.create_target [(10 : ℤ), 20, 30] = some [20, 30, 10] ∧
    some [(20 : ℤ), 30, 10] ≠ some [(30 : ℤ), 10, 20] :=
  ⟨rfl, by decide⟩

/-- C6 (amended): in `CyclicReplace` over `n` members, the target created for
member `i` is placed at the position of member `(i + 1) mod n` — so every
member's target is one of the original member positions, a cyclic permutation
of positions — and the default `path_arc` is `90 * DEG = pi / 2`, which makes
`Transform.init_path_func` select the arc path, so all members move along an
arced path simultaneously. -/
theorem C6_cyclic_replace_targets {P : Type} (ps : List P) (j : ℕ)
    (hj : j < ps.length) :
    (∃ t, Cyclic.create_target ps = some t ∧ t.length = ps.length ∧
      t.get? j = ps.get? ((j + 1) % ps.length) ∧
      ∃ k, k < ps.length ∧ t.get? j = ps.get? k) ∧
    Cyclic.cyclic_replace_path_arc = Real.pi / 2 ∧
    Cyclic.init_path_func Cyclic.cyclic_replace_path_arc =
      Cyclic.PathChoice.arc Cyclic.cyclic_replace_path_arc := by
  have harc : Cyclic.cyclic_replace_path_arc = Real.pi / 2 := by
    rw [Cyclic.cyclic_replace_path_arc, Cyclic.DEG]; ring
  refine ⟨?_, harc, ?_⟩
  · obtain ⟨t, h1, h2, h3⟩ := Cyclic.create_target_get ps j hj
    exact ⟨t, h1, h2, h3,
      (j + 1) % ps.length, Nat.mod_lt _ (by omega), h3⟩
  · have hne : Cyclic.cyclic_replace_path_arc ≠ 0 := by
      rw [harc]
      intro hc
      have hp := Real.pi_pos
      have hz : Real.pi = 0 := by linarith
      linarith
    rw [Cyclic.init_path_func, if_neg hne]

theorem C6_cyclic_replace_witness :
    0 < ([(10 : ℤ), 20, 30] : List ℤ).length ∧
    ((∃ t, Cyclic.create_target [(10 : ℤ), 20, 30] = some t ∧
      t.length = ([(10 : ℤ), 20, 30] : List ℤ).length ∧
      t.get? 0 = ([(10 : ℤ), 20, 30] : List ℤ).get?
        ((0 + 1) % ([(10 : ℤ), 20, 30] : List ℤ).length) ∧
      ∃ k, k < ([(10 : ℤ), 20, 30] : List ℤ).length ∧
        t.get? 0 = ([(10 : ℤ), 20, 30] : List ℤ).get? k) ∧
     Cyclic.cyclic_replace_path_arc = Real.pi / 2 ∧
     Cyclic.init_path_func Cyclic.cyclic_replace_path_arc =
       Cyclic.PathChoice.arc Cyclic.cyclic_replace_path_arc) :=
  ⟨by decide, C6_cyclic_replace_targets [(10 : ℤ), 20, 30] 0 (by decide)⟩

namespace Creation

theorem update_never_last (index : ℤ) :
    update_submobject_list ([0, 1] : List ℕ) index ≠ some [1] := by
  intro h
  simp only [update_submobject_list, SimpleFunctions.clip,
    List.length_cons, List.length_nil] at h
  by_cases hz : min (max index 0) (((1 + 1 : ℕ) : ℤ) - 1) = 0
  · rw [if_pos hz] at h
    simp at h
  · rw [if_neg hz] at h
    have h1 : min (max index 0) (((1 + 1 : ℕ) : ℤ) - 1) = 1 := by omega
    rw [h1] at h
    simp [pyGet] at h

end Creation

/-- C7: the claim states that with index clamping no out-of-bounds access
occurs and that every child, including the last, is the displayed child for
some alpha in `[0, 1]`.  The second part is false: over the two-child group
`[0, 1]` with the identity rate function, no alpha at all (in particular none
in `[0, 1]`) makes the displayed list `[1]` — the clamp to `n - 1` combined
with the `index - 1` access means the last child is never displayed. -/
theorem C7_last_child_counterexample :
    ¬ ∃ α : ℚ, Creation.one_by_one_interpolate (fun a => a)
      ([0, 1] : List ℕ) α = some [1] := by
  rintro ⟨α, h⟩
  exact Creation.update_never_last _ h

/-- C7 (amended): for a nonempty `n`-child group, every integer index
(including those derived from alphas mapped outside `[0, 1]` by the rate
function) is clamped so the update never makes an out-of-bounds access, and
the animation displays at most one child — none at clipped index `0`,
otherwise exactly the child at position `clipped - 1 <= n - 2`; consequently
the last child is never displayed, while each child at a position up to
`n - 2` is the displayed child for some alpha in `[0, 1]` (alpha =
`(j + 1) / n`).  (For an empty group the clamp bounds cross and the code
raises an `IndexError` instead.) -/
theorem C7_one_by_one_display {C : Type} (subs : List C) (index : ℤ) (j : ℕ)
    (hne : subs ≠ []) (hj : j + 2 ≤ subs.length) :
    (∃ l, Creation.update_submobject_list subs index = some l ∧
      l.length ≤ 1 ∧
      (l = [] ∨ ∃ k c, k + 2 ≤ subs.length ∧ subs.get? k = some c ∧
        l = [c])) ∧
    (∃ α : ℚ, 0 ≤ α ∧ α ≤ 1 ∧ ∃ c, subs.get? j = some c ∧
      Creation.one_by_one_interpolate (fun a => a) subs α = some [c]) := by
  have hn : 0 < subs.length := List.length_pos.mpr hne
  constructor
  · simp only [Creation.update_submobject_list, SimpleFunctions.clip]
    by_cases hz : min (max index 0) ((subs.length : ℤ) - 1) = 0
    · rw [if_pos hz]
      exact ⟨[], rfl, by simp, Or.inl rfl⟩
    · rw [if_neg hz]
      have hlt : (min (max index 0) ((subs.length : ℤ) - 1) - 1).toNat <
          subs.length := by omega
      have hpg : Creation.pyGet subs
          (min (max index 0) ((subs.length : ℤ) - 1) - 1) =
          subs.get?
            ((min (max index 0) ((subs.length : ℤ) - 1) - 1).toNat) := by
        simp only [Creation.pyGet]
        rw [if_pos (by omega)]
      rw [hpg, List.get?_eq_get hlt]
      refine ⟨[subs.get ⟨_, hlt⟩], rfl, by simp,
        Or.inr ⟨_, subs.get ⟨_, hlt⟩, by omega, List.get?_eq_get hlt, rfl⟩⟩
  · have hden : (0 : ℚ) < (subs.length : ℚ) := by exact_mod_cast hn
    refine ⟨((j : ℚ) + 1) / (subs.length : ℚ), by positivity, ?_, ?_⟩
    · rw [div_le_one hden]
      exact_mod_cast (by omega : j + 1 ≤ subs.length)
    · refine ⟨subs.get ⟨j, by omega⟩, List.get?_eq_get (by omega), ?_⟩
      show Creation.update_submobject_list subs
        ⌈(fun a => a) (((j : ℚ) + 1) / (subs.length : ℚ)) *
          (subs.length : ℚ)⌉ = some [subs.get ⟨j, by omega⟩]
      have hcalc : (fun a => a) (((j : ℚ) + 1) / (subs.length : ℚ)) *
          (subs.length : ℚ) = (((j : ℤ) + 1 : ℤ) : ℚ) := by
        push_cast
        field_simp
      rw [hcalc, Int.ceil_intCast]
      simp only [Creation.update_submobject_list, SimpleFunctions.clip]
      have hclip : min (max ((j : ℤ) + 1) 0) ((subs.length : ℤ) - 1) =
          (j : ℤ) + 1 := by omega
      rw [hclip, if_neg (by omega)]
      have htn : ((j : ℤ) + 1 - 1).toNat = j := by omega
      have hpg : Creation.pyGet subs ((j : ℤ) + 1 - 1) = subs.get? j := by
        simp only [Creation.pyGet]
        rw [if_pos (by omega), htn]
      rw [hpg, List.get?_eq_get (by omega)]
      rfl

theorem C7_one_by_one_witness :
    ([10, 20] : List ℕ) ≠ [] ∧ 0 + 2 ≤ ([10, 20] : List ℕ).length ∧
    ((∃ l, Creation.update_submobject_list ([10, 20] : List ℕ) 7 = some l ∧
      l.length ≤ 1 ∧
      (l = [] ∨ ∃ k c, k + 2 ≤ ([10, 20] : List ℕ).length ∧
        ([10, 20] : List ℕ).get? k = some c ∧ l = [c])) ∧
     (∃ α : ℚ, 0 ≤ α ∧ α ≤ 1 ∧ ∃ c, ([10, 20] : List ℕ).get? 0 = some c ∧
       Creation.one_by_one_interpolate (fun a => a) ([10, 20] : List ℕ) α =
         some [c])) :=
  ⟨by decide, by decide,
    C7_one_by_one_display ([10, 20] : List ℕ) 7 0 (by decide) (by decide)⟩

/-- C9: for a `FadeOut` with `shift = (1, 0, 0)` and `scale = 0` on a unit
square centered at the origin, `create_target` yields a copy with opacity
`0`, whose center has moved from the origin by exactly `(1, 0, 0)` and whose
size has collapsed to `0` (every point equals the shifted center); and since
the straight path reaches its endpoint at progress `1`, that is the node
state at `alpha = 1`. -/
theorem C9_fade_out_target :
    (Fading.FadeOut.create_target Fading.unit_square
      (Fading.V3.mk 1 0 0) 0).opacity = 0 ∧
    Fading.center_of Fading.unit_square = Fading.V3.mk 0 0 0 ∧
    Fading.center_of (Fading.FadeOut.create_target Fading.unit_square
      (Fading.V3.mk 1 0 0) 0) = Fading.V3.mk 1 0 0 ∧
    Fading.extent (Fading.FadeOut.create_target Fading.unit_square
      (Fading.V3.mk 1 0 0) 0) = Fading.V3.mk 0 0 0 ∧
    (Fading.FadeOut.create_target Fading.unit_square
      (Fading.V3.mk 1 0 0) 0).pts =
      [Fading.V3.mk 1 0 0, Fading.V3.mk 1 0 0,
       Fading.V3.mk 1 0 0, Fading.V3.mk 1 0 0] ∧
    (∀ a b : Fading.V3, Fading.straight_path a b 1 = b) := by
  have hshift : Fading.shift (Fading.V3.mk 1 0 0)
      (Fading.set_opacity 0 Fading.unit_square) =
      Fading.VMob.mk
        [Fading.V3.mk (1 / 2) (-(1 / 2)) 0, Fading.V3.mk (3 / 2) (-(1 / 2)) 0,
         Fading.V3.mk (3 / 2) (1 / 2) 0, Fading.V3.mk (1 / 2) (1 / 2) 0] 0 := by
    unfold Fading.shift Fading.set_opacity Fading.unit_square
    norm_num
  have htgt : Fading.FadeOut.create_target Fading.unit_square
      (Fading.V3.mk 1 0 0) 0 =
      Fading.VMob.mk
        [Fading.V3.mk 1 0 0, Fading.V3.mk 1 0 0,
         Fading.V3.mk 1 0 0, Fading.V3.mk 1 0 0] 0 := by
    unfold Fading.FadeOut.create_target
    rw [hshift]
    unfold Fading.scale Fading.center_of Fading.coord_min Fading.coord_max
    norm_num
  refine ⟨by rw [htgt], ?_, ?_, ?_, by rw [htgt], ?_⟩
  · unfold Fading.center_of Fading.coord_min Fading.coord_max
      Fading.unit_square
    norm_num
  · rw [htgt]
    unfold Fading.center_of Fading.coord_min Fading.coord_max
    norm_num
  · rw [htgt]
    unfold Fading.extent Fading.coord_min Fading.coord_max
    norm_num
  · intro a b
    cases b
    norm_num [Fading.straight_path]

/-- C10: the effective (second) definition of `CountInFrom` sets the decimal
mobject's value to `interpolate(source_number, v0, clip(alpha, 0, 1))`, with
`v0` the mobject's value at construction; the clip keeps the displayed value
inside the segment between `source_number` and `v0` for every alpha — even
one an overshooting rate function mapped outside `[0, 1]` — and at clipped
alpha `1` the mobject displays exactly `v0`. -/
theorem C10_count_in_from_value (source v0 α : ℚ) :
    Numbers.count_in_from_value source v0 α =
      Bezier.interpolate source v0 (SimpleFunctions.clip α 0 1) ∧
    min source v0 ≤ Numbers.count_in_from_value source v0 α ∧
    Numbers.count_in_from_value source v0 α ≤ max source v0 ∧
    Numbers.count_in_from_value source v0 1 = v0 := by
  have hval : Numbers.count_in_from_value source v0 α =
      Bezier.interpolate source v0 (SimpleFunctions.clip α 0 1) := rfl
  have ht0 : 0 ≤ SimpleFunctions.clip α 0 1 :=
    le_min (le_max_right α 0) zero_le_one
  have ht1 : SimpleFunctions.clip α 0 1 ≤ 1 := min_le_right _ _
  have hs : min source v0 ≤ source := min_le_left _ _
  have hv : min source v0 ≤ v0 := min_le_right _ _
  have hs2 : source ≤ max source v0 := le_max_left _ _
  have hv2 : v0 ≤ max source v0 := le_max_right _ _
  refine ⟨hval, ?_, ?_, ?_⟩
  · rw [hval, Bezier.interpolate]
    nlinarith [mul_nonneg (by linarith : (0 : ℚ) ≤ 1 - SimpleFunctions.clip α 0 1)
        (by linarith : (0 : ℚ) ≤ source - min source v0),
      mul_nonneg ht0 (by linarith : (0 : ℚ) ≤ v0 - min source v0)]
  · rw [hval, Bezier.interpolate]
    nlinarith [mul_nonneg (by linarith : (0 : ℚ) ≤ 1 - SimpleFunctions.clip α 0 1)
        (by linarith : (0 : ℚ) ≤ max source v0 - source),
      mul_nonneg ht0 (by linarith : (0 : ℚ) ≤ max source v0 - v0)]
  · show Bezier.interpolate source v0 (SimpleFunctions.clip 1 0 1) = v0
    norm_num [SimpleFunctions.clip, Bezier.interpolate]
